import Mathlib

/-
Verification of the fundsp processing-unit core against its specification.

The definitions below are a shallow embedding of `src/audiounit.rs` and
`src/filter.rs`: machine floating-point numbers are modelled as real numbers,
stateful methods take the receiver state and return the updated state, and
fatal assertions are modelled by `Option` results (`none` = panic).
Types that the sources use but whose definitions live outside the given
files (`AttoHash`, `Signal`, `MAX_BUFFER_SIZE`) are modelled from the
specification text, as marked in their doc comments.
-/

/-- Maximum block size of the engine in samples. The `process` doc comment in
`audiounit.rs` fixes it: process up to 64 (MAX_BUFFER_SIZE) samples. -/
def MAX_BUFFER_SIZE : Nat := 64

/-- Modelled from the spec: `AttoHash` (whose definition is outside the given
source files) is a running 64-bit accumulator; combining it with a node's type
identifier yields a new accumulator value, and the exact mixing function is an
implementation detail for which any deterministic well-distributed 64-bit mix
is acceptable (spec sections 3 and 9). -/
structure AttoHash where
  state : Nat

/-- Combine the accumulator with a node id: a splitmix-style 64-bit mix. -/
def AttoHash.hash (h : AttoHash) (x : Nat) : AttoHash :=
  AttoHash.mk ((h.state ^^^ x) * 0xd1b54a32d192ed03 % 2 ^ 64)

/-- The portion of an audio unit's state that the default `ping`
implementation in `audiounit.rs` touches: the stable type id returned by
`get_id`, and the pseudorandom seed installed by `set_hash`. -/
structure PingUnit where
  id : Nat
  seed : Nat

/-- The `set_hash` method: install a derived pseudorandom seed. -/
def PingUnit.set_hash (u : PingUnit) (h : Nat) : PingUnit :=
  { u with seed := h }

/-- The `get_id` method: return the stable type identifier. -/
def PingUnit.get_id (u : PingUnit) : Nat :=
  u.id

/-- Default `ping` implementation from `audiounit.rs`: when not probing,
first install the pre-combination hash state via `set_hash`, then return the
hash combined with this unit's id. -/
def PingUnit.ping (u : PingUnit) (probe : Bool) (hash : AttoHash) :
    PingUnit × AttoHash :=
  let u' := if !probe then u.set_hash hash.state else u
  (u', hash.hash u'.get_id)

/-- Modelled from the spec: a per-channel symbolic value is one of
Response(complex gain, opaque extra scalar), Latency(fractional sample count),
or absent/unknown (spec section 3); the `Signal` type's definition is outside
the given source files. -/
inductive Signal where
  | unknown : Signal
  | latency (l : ℝ) : Signal
  | response (r : ℂ) (l : ℝ) : Signal

/-- A signal frame is an ordered sequence of per-channel symbolic values. -/
abbrev SignalFrame := List Signal

/-- A fresh signal frame of `n` channels, all absent/unknown. -/
def new_signal_frame (n : Nat) : SignalFrame :=
  List.replicate n Signal.unknown

/-- Modelled from the spec: filtering a symbolic signal applies the filter's
complex transfer function to a response and adds the filter's delay
contribution to a carried latency; latencies propagate as latencies and are
never promoted to responses (spec sections 4.3 and 4.6). -/
def Signal.filter (s : Signal) (delay : ℝ) (f : ℂ → ℂ) : Signal :=
  match s with
  | Signal.unknown => Signal.unknown
  | Signal.latency l => Signal.latency (l + delay)
  | Signal.response r l => Signal.response (f r) (l + delay)

/-- One step of the latency-minimum accumulation loop in the derived
`latency` helper of `audiounit.rs`. -/
def latStep (acc : Option ℝ) (s : Signal) : Option ℝ :=
  match acc, s with
  | none, Signal.latency x => some x
  | some r, Signal.latency x => some (min r x)
  | r, _ => r

/-- The latency-minimum accumulation loop of the `latency` helper:
fold over outputs `0..outs`, tracking the least latency seen so far. -/
def latencyFold (resp : SignalFrame) (outs : Nat) : Option ℝ :=
  (List.range outs).foldl (fun acc i => latStep acc (resp.getD i Signal.unknown)) none

/-- The derived `latency` helper from `audiounit.rs`, for a unit with `ins`
inputs, `outs` outputs, and routing function `route`: return `none` for a unit
without outputs, otherwise seed every input with Latency(0), route at the
(irrelevant) frequency 1.0, and accumulate the minimum latency over outputs. -/
def latencyOf (ins outs : Nat) (route : SignalFrame → ℝ → SignalFrame) : Option ℝ :=
  if outs = 0 then none
  else latencyFold (route (List.replicate ins (Signal.latency 0)) 1.0) outs

/-- The latency values carried by the first `outs` channels of a frame. -/
def outputLatencies (resp : SignalFrame) (outs : Nat) : List ℝ :=
  (List.range outs).filterMap fun i =>
    match resp.getD i Signal.unknown with
    | Signal.latency x => some x
    | _ => none

theorem foldl_min_some (as : List ℝ) (a : ℝ) :
    as.foldl (fun acc x => match acc, x with
      | none, x => some x
      | some r, x => some (min r x)) (some a) = some (as.foldl min a) := by
  induction as generalizing a with
  | nil => rfl
  | cons b bs ih => exact ih (min a b)

theorem foldl_min_eq_min? (ls : List ℝ) :
    ls.foldl (fun acc x => match acc, x with
      | none, x => some x
      | some r, x => some (min r x)) none = ls.min? := by
  cases ls with
  | nil => rfl
  | cons a as =>
    simp only [List.foldl_cons, List.min?]
    exact foldl_min_some as a

theorem foldl_latStep_filterMap (sigs : List Signal) (acc : Option ℝ) :
    sigs.foldl latStep acc =
      (sigs.filterMap fun s => match s with
        | Signal.latency x => some x
        | _ => none).foldl (fun acc x => match acc, x with
          | none, x => some x
          | some r, x => some (min r x)) acc := by
  induction sigs generalizing acc with
  | nil => rfl
  | cons s rest ih =>
    cases s with
    | unknown => simpa [latStep] using ih acc
    | latency x =>
      cases acc with
      | none => simpa [latStep] using ih (some x)
      | some r => simpa [latStep] using ih (some (min r x))
    | response r l => simpa [latStep] using ih acc

theorem latencyFold_eq_min? (resp : SignalFrame) (outs : Nat) :
    latencyFold resp outs = (outputLatencies resp outs).min? := by
  have h1 : latencyFold resp outs =
      ((List.range outs).map fun i => resp.getD i Signal.unknown).foldl latStep none := by
    rw [List.foldl_map]
    rfl
  rw [h1, foldl_latStep_filterMap, foldl_min_eq_min?, List.filterMap_map]
  rfl

/-- C2: `ping(probe, hash)` returns the accumulator obtained by combining
`hash` with the unit's `get_id`; when `probe` is false, the pre-combination
hash state is installed into the unit via `set_hash`; when `probe` is true,
the unit (hence its seed state) is left unchanged. -/
theorem ping_spec (u : PingUnit) (probe : Bool) (h : AttoHash) :
    (u.ping probe h).2 = h.hash u.get_id ∧
    (probe = false → (u.ping probe h).1 = u.set_hash h.state) ∧
    (probe = true → (u.ping probe h).1 = u) := by
  cases probe <;>
    simp [PingUnit.ping, PingUnit.set_hash, PingUnit.get_id]

/-- C6: the derived latency helper returns `none` for a unit with zero
outputs; otherwise it seeds every input with Latency(0), routes, and returns
the minimum of the latency values found among the outputs, with `none` when no
output carries a latency value. -/
theorem latency_spec (ins outs : Nat) (route : SignalFrame → ℝ → SignalFrame) :
    (outs = 0 → latencyOf ins outs route = none) ∧
    (outs ≠ 0 →
      latencyOf ins outs route =
        (outputLatencies (route (List.replicate ins (Signal.latency 0)) 1.0) outs).min?) := by
  constructor
  · intro h
    simp [latencyOf, h]
  · intro h
    rw [latencyOf, if_neg h, latencyFold_eq_min?]

/-- The default sample rate, 44100 Hz (`audiounit.rs` trait doc). -/
noncomputable def DEFAULT_SR : ℝ := 44100

/-- Complex number from polar coordinates, as `Complex64::from_polar`. -/
noncomputable def from_polar (r theta : ℝ) : ℂ :=
  (r : ℂ) * Complex.exp ((theta : ℂ) * Complex.I)

/-- Biquad coefficients (a1, a2, b0, b1, b2) of a normalized second-order
IIR, from `filter.rs`. -/
structure BiquadCoefs where
  a1 : ℝ
  a2 : ℝ
  b0 : ℝ
  b1 : ℝ
  b2 : ℝ

/-- Butterworth lowpass design equations from `filter.rs`:
cutoff is the -3 dB point of the filter in Hz. -/
noncomputable def BiquadCoefs.butter_lowpass (sample_rate cutoff : ℝ) : BiquadCoefs :=
  let f : ℝ := Real.tan (cutoff * Real.pi / sample_rate)
  let a0r : ℝ := 1 / (1 + Real.sqrt 2 * f + f * f)
  let a1 : ℝ := (2 * f * f - 2) * a0r
  let a2 : ℝ := (1 - Real.sqrt 2 * f + f * f) * a0r
  let b0 : ℝ := f * f * a0r
  let b1 : ℝ := 2 * b0
  let b2 : ℝ := b0
  ⟨a1, a2, b0, b1, b2⟩

/-- Constant-gain bandpass resonator design equations from `filter.rs`. -/
noncomputable def BiquadCoefs.resonator (sample_rate center bandwidth : ℝ) : BiquadCoefs :=
  let r : ℝ := Real.exp (-Real.pi * bandwidth / sample_rate)
  let a1 : ℝ := -2 * r * Real.cos (2 * Real.pi * center / sample_rate)
  let a2 : ℝ := r * r
  let b0 : ℝ := Real.sqrt (1 - r * r) * 0.5
  let b1 : ℝ := 0
  let b2 : ℝ := -b0
  ⟨a1, a2, b0, b1, b2⟩

/-- Arbitrary biquad: direct coefficient injection. -/
def BiquadCoefs.arbitrary (a1 a2 b0 b1 b2 : ℝ) : BiquadCoefs :=
  ⟨a1, a2, b0, b1, b2⟩

/-- Frequency response at frequency `omega` expressed as a fraction of the
sampling rate, from `filter.rs`. -/
noncomputable def BiquadCoefs.response (c : BiquadCoefs) (omega : ℝ) : ℂ :=
  let z1 : ℂ := from_polar 1 (-(2 * Real.pi) * omega)
  let z2 : ℂ := z1 * z1
  ((c.b0 : ℂ) + (c.b1 : ℂ) * z1 + (c.b2 : ℂ) * z2) /
    ((1 : ℂ) + (c.a1 : ℂ) * z1 + (c.a2 : ℂ) * z2)

/-- 2nd order IIR filter state in normalized Direct Form I, from `filter.rs`. -/
structure Biquad where
  coefs : BiquadCoefs
  x1 : ℝ
  x2 : ℝ
  y1 : ℝ
  y2 : ℝ
  sample_rate : ℝ

/-- A fresh biquad with zeroed coefficients, state and the default rate. -/
noncomputable def Biquad.new : Biquad :=
  ⟨⟨0, 0, 0, 0, 0⟩, 0, 0, 0, 0, DEFAULT_SR⟩

/-- The biquad `reset`: zero the history state only. -/
def Biquad.reset (s : Biquad) : Biquad :=
  { s with x1 := 0, x2 := 0, y1 := 0, y2 := 0 }

/-- The biquad `tick` from `filter.rs`. -/
def Biquad.tick (s : Biquad) (input : List ℝ) : Biquad × List ℝ :=
  let x0 : ℝ := input.getD 0 0
  let y0 : ℝ := s.coefs.b0 * x0 + s.coefs.b1 * s.x1 + s.coefs.b2 * s.x2
    - s.coefs.a1 * s.y1 - s.coefs.a2 * s.y2
  ({ s with x2 := s.x1, x1 := x0, y2 := s.y1, y1 := y0 }, [y0])

/-- The biquad `route` from `filter.rs`: multiply the incoming response by the
closed-form transfer function at the normalized frequency. -/
noncomputable def Biquad.route (s : Biquad) (input : SignalFrame) (frequency : ℝ) :
    Biquad × SignalFrame :=
  (s, [(input.getD 0 Signal.unknown).filter 0 fun r =>
    r * s.coefs.response (frequency / s.sample_rate)])

/-- Butterworth lowpass node state, from `filter.rs`. -/
structure ButterLowpass where
  biquad : Biquad
  sample_rate : ℝ
  cutoff : ℝ

/-- `ButterLowpass::set_cutoff`: re-derive biquad coefficients at the given
cutoff and store the cutoff. -/
noncomputable def ButterLowpass.set_cutoff (s : ButterLowpass) (cutoff : ℝ) : ButterLowpass :=
  { s with
    biquad := { s.biquad with coefs := BiquadCoefs.butter_lowpass s.sample_rate cutoff }
    cutoff := cutoff }

/-- `ButterLowpass::new` with initial cutoff frequency in Hz. -/
noncomputable def ButterLowpass.new (cutoff : ℝ) : ButterLowpass :=
  ButterLowpass.set_cutoff ⟨Biquad.new.reset, DEFAULT_SR, 0⟩ cutoff

/-- `ButterLowpass::tick` for input arity `n` (the compile-time `N::USIZE`):
when a cutoff input is present and differs from the stored cutoff, re-derive
the coefficients before filtering the sample. -/
noncomputable def ButterLowpass.tick (n : Nat) (s : ButterLowpass) (input : List ℝ) :
    ButterLowpass × List ℝ :=
  let s1 := if 1 < n then
      (let cutoff := input.getD 1 0
       if cutoff ≠ s.cutoff then s.set_cutoff cutoff else s)
    else s
  let p := s1.biquad.tick [input.getD 0 0]
  ({ s1 with biquad := p.1 }, p.2)

/-- `ButterLowpass::route` from `filter.rs`. -/
noncomputable def ButterLowpass.route (s : ButterLowpass) (input : SignalFrame)
    (frequency : ℝ) : ButterLowpass × SignalFrame :=
  (s, [(input.getD 0 Signal.unknown).filter 0 fun r =>
    r * s.biquad.coefs.response (frequency / s.sample_rate)])

/-- Constant-gain bandpass resonator node state, from `filter.rs`. -/
structure Resonator where
  biquad : Biquad
  sample_rate : ℝ
  center : ℝ
  bandwidth : ℝ

/-- `Resonator::set_center_bandwidth`. -/
noncomputable def Resonator.set_center_bandwidth (s : Resonator) (center bandwidth : ℝ) :
    Resonator :=
  { s with
    biquad := { s.biquad with coefs := BiquadCoefs.resonator s.sample_rate center bandwidth }
    center := center
    bandwidth := bandwidth }

/-- `Resonator::new`: the constructor performs no validation of the bandwidth
(there is no assertion in `filter.rs`), so it is total. -/
noncomputable def Resonator.new (center bandwidth : ℝ) : Option Resonator :=
  some (Resonator.set_center_bandwidth ⟨Biquad.new.reset, DEFAULT_SR, center, bandwidth⟩
    center bandwidth)

/-- `Resonator::tick` for input arity `n`: with modulation inputs present,
re-derive coefficients when the (center, bandwidth) pair differs from the
stored parameters. -/
noncomputable def Resonator.tick (n : Nat) (s : Resonator) (input : List ℝ) :
    Resonator × List ℝ :=
  let s1 := if 3 ≤ n then
      (let center := input.getD 1 0
       let bandwidth := input.getD 2 0
       if center ≠ s.center ∨ bandwidth ≠ s.bandwidth then
         { s with
           biquad := { s.biquad with
             coefs := BiquadCoefs.resonator s.sample_rate center bandwidth }
           center := center
           bandwidth := bandwidth }
       else s)
    else s
  let p := s1.biquad.tick [input.getD 0 0]
  ({ s1 with biquad := p.1 }, p.2)

/-- `Resonator::route` from `filter.rs`. -/
noncomputable def Resonator.route (s : Resonator) (input : SignalFrame) (frequency : ℝ) :
    Resonator × SignalFrame :=
  (s, [(input.getD 0 Signal.unknown).filter 0 fun r =>
    r * s.biquad.coefs.response (frequency / s.sample_rate)])

/-- One-pole lowpass node state, from `filter.rs`. -/
structure Lowpole where
  value : ℝ
  coeff : ℝ
  cutoff : ℝ
  sample_rate : ℝ

/-- `Lowpole::set_cutoff`: store the cutoff and re-derive the exponential
coefficient. -/
noncomputable def Lowpole.set_cutoff (s : Lowpole) (cutoff : ℝ) : Lowpole :=
  { s with cutoff := cutoff, coeff := Real.exp (-(2 * Real.pi) * cutoff / s.sample_rate) }

/-- `Lowpole::new` with cutoff frequency in Hz. -/
noncomputable def Lowpole.new (cutoff : ℝ) : Lowpole :=
  Lowpole.set_cutoff ⟨0, 0, cutoff, DEFAULT_SR⟩ cutoff

/-- `Lowpole::tick` for input arity `n`. -/
noncomputable def Lowpole.tick (n : Nat) (s : Lowpole) (input : List ℝ) :
    Lowpole × List ℝ :=
  let s1 := if 1 < n then
      (let cutoff := input.getD 1 0
       if cutoff ≠ s.cutoff then s.set_cutoff cutoff else s)
    else s
  let x : ℝ := input.getD 0 0
  let v : ℝ := (1 - s1.coeff) * x + s1.coeff * s1.value
  ({ s1 with value := v }, [v])

/-- `Lowpole::route` from `filter.rs`. -/
noncomputable def Lowpole.route (s : Lowpole) (input : SignalFrame) (frequency : ℝ) :
    Lowpole × SignalFrame :=
  (s, [(input.getD 0 Signal.unknown).filter 0 fun r =>
    let c : ℂ := (s.coeff : ℂ)
    let z1 : ℂ := from_polar 1 (-(frequency * (2 * Real.pi) / s.sample_rate))
    r * ((1 - c) / (1 - c * z1))])

/-- DC blocking filter node state, from `filter.rs`. -/
structure DCBlock where
  x1 : ℝ
  y1 : ℝ
  cutoff : ℝ
  coeff : ℝ
  sample_rate : ℝ

/-- `DCBlock::set_cutoff`. -/
noncomputable def DCBlock.set_cutoff (s : DCBlock) (cutoff : ℝ) : DCBlock :=
  { s with cutoff := cutoff, coeff := 1 - (2 * Real.pi) / s.sample_rate * cutoff }

/-- `DCBlock::tick` from `filter.rs`. -/
def DCBlock.tick (s : DCBlock) (input : List ℝ) : DCBlock × List ℝ :=
  let x : ℝ := input.getD 0 0
  let y0 : ℝ := x - s.x1 + s.coeff * s.y1
  ({ s with x1 := x, y1 := y0 }, [y0])

/-- `DCBlock::route` from `filter.rs`. -/
noncomputable def DCBlock.route (s : DCBlock) (input : SignalFrame) (frequency : ℝ) :
    DCBlock × SignalFrame :=
  (s, [(input.getD 0 Signal.unknown).filter 0 fun r =>
    let c : ℂ := (s.coeff : ℂ)
    let z1 : ℂ := from_polar 1 (-(frequency * (2 * Real.pi) / s.sample_rate))
    r * ((1 - z1) / (1 - c * z1))])

/-- Pinking filter node state (Kellett's algorithm), from `filter.rs`. -/
structure Pinkpass where
  b0 : ℝ
  b1 : ℝ
  b2 : ℝ
  b3 : ℝ
  b4 : ℝ
  b5 : ℝ
  b6 : ℝ
  sample_rate : ℝ

/-- `Pinkpass::tick` from `filter.rs`. -/
noncomputable def Pinkpass.tick (s : Pinkpass) (input : List ℝ) : Pinkpass × List ℝ :=
  let x : ℝ := input.getD 0 0
  let b0 : ℝ := 0.99886 * s.b0 + x * 0.0555179
  let b1 : ℝ := 0.99332 * s.b1 + x * 0.0750759
  let b2 : ℝ := 0.96900 * s.b2 + x * 0.1538520
  let b3 : ℝ := 0.86650 * s.b3 + x * 0.3104856
  let b4 : ℝ := 0.55000 * s.b4 + x * 0.5329522
  let b5 : ℝ := -0.7616 * s.b5 - x * 0.0168980
  let out : ℝ := (b0 + b1 + b2 + b3 + b4 + b5 + s.b6 + x * 0.5362) * 0.115830421
  let b6 : ℝ := x * 0.115926
  (⟨b0, b1, b2, b3, b4, b5, b6, s.sample_rate⟩, [out])

/-- `Pinkpass::route` from `filter.rs`: six fixed complex pole terms plus a
direct gain term. -/
noncomputable def Pinkpass.route (s : Pinkpass) (input : SignalFrame) (frequency : ℝ) :
    Pinkpass × SignalFrame :=
  (s, [(input.getD 0 Signal.unknown).filter 0 fun r =>
    let z1 : ℂ := from_polar 1 (-(frequency * (2 * Real.pi) / s.sample_rate))
    let pole0 : ℂ := 0.0555179 / (1 - 0.99886 * z1)
    let pole1 : ℂ := 0.0750759 / (1 - 0.99332 * z1)
    let pole2 : ℂ := 0.1538520 / (1 - 0.96900 * z1)
    let pole3 : ℂ := 0.3104856 / (1 - 0.86650 * z1)
    let pole4 : ℂ := 0.5329522 / (1 - 0.55000 * z1)
    let pole5 : ℂ := -0.016898 / (1 + 0.7616 * z1)
    r * (pole0 + pole1 + pole2 + pole3 + pole4 + pole5 + 0.115926 * z1 + 0.5362)
      * 0.115830421])

/-- First-order allpass node state, from `filter.rs`. -/
structure Allpole where
  eta : ℝ
  x1 : ℝ
  y1 : ℝ
  sample_rate : ℝ

/-- `Allpole::set_delay`: derive the allpass coefficient from the delay. -/
noncomputable def Allpole.set_delay (s : Allpole) (delay : ℝ) : Allpole :=
  { s with eta := (1 - delay) / (1 + delay) }

/-- `Allpole::new`: `assert!(delay > 0)` at the point of misuse, modelled as
`none` on violation. -/
noncomputable def Allpole.new (delay : ℝ) : Option Allpole :=
  if 0 < delay then some (Allpole.set_delay ⟨0, 0, 0, DEFAULT_SR⟩ delay) else none

/-- `Allpole::tick` for input arity `n`: a delay input, when present, is
applied through `set_delay` on every tick. -/
noncomputable def Allpole.tick (n : Nat) (s : Allpole) (input : List ℝ) : Allpole × List ℝ :=
  let s1 := if 1 < n then s.set_delay (input.getD 1 0) else s
  let x0 : ℝ := input.getD 0 0
  let y0 : ℝ := s1.eta * (x0 - s1.y1) + s1.x1
  ({ s1 with x1 := x0, y1 := y0 }, [y0])

/-- `Allpole::route` from `filter.rs`. -/
noncomputable def Allpole.route (s : Allpole) (input : SignalFrame) (frequency : ℝ) :
    Allpole × SignalFrame :=
  (s, [(input.getD 0 Signal.unknown).filter 0 fun r =>
    let eta : ℂ := (s.eta : ℂ)
    let z1 : ℂ := from_polar 1 (-(frequency * (2 * Real.pi) / s.sample_rate))
    r * (eta + z1) / (1 + eta * z1)])

/-- One-pole, one-zero highpass node state, from `filter.rs`. -/
structure Highpole where
  x1 : ℝ
  y1 : ℝ
  coeff : ℝ
  cutoff : ℝ
  sample_rate : ℝ

/-- `Highpole::set_cutoff`. -/
noncomputable def Highpole.set_cutoff (s : Highpole) (cutoff : ℝ) : Highpole :=
  { s with cutoff := cutoff, coeff := Real.exp (-(2 * Real.pi) * cutoff / s.sample_rate) }

/-- `Highpole::new` with cutoff frequency in Hz. -/
noncomputable def Highpole.new (cutoff : ℝ) : Highpole :=
  Highpole.set_cutoff ⟨0, 0, 0, cutoff, DEFAULT_SR⟩ cutoff

/-- `Highpole::tick` for input arity `n`. -/
noncomputable def Highpole.tick (n : Nat) (s : Highpole) (input : List ℝ) :
    Highpole × List ℝ :=
  let s1 := if 1 < n then
      (let cutoff := input.getD 1 0
       if cutoff ≠ s.cutoff then s.set_cutoff cutoff else s)
    else s
  let x0 : ℝ := input.getD 0 0
  let y0 : ℝ := s1.coeff * (s1.y1 + x0 - s1.x1)
  ({ s1 with x1 := x0, y1 := y0 }, [y0])

/-- `Highpole::route` from `filter.rs`. -/
noncomputable def Highpole.route (s : Highpole) (input : SignalFrame) (frequency : ℝ) :
    Highpole × SignalFrame :=
  (s, [(input.getD 0 Signal.unknown).filter 0 fun r =>
    let c : ℂ := (s.coeff : ℂ)
    let z1 : ℂ := from_polar 1 (-(frequency * (2 * Real.pi) / s.sample_rate))
    r * (c * (1 - z1) / (1 - c * z1))])

/-- C7: analysis does not perturb audio state: for every leaf filter node of
the filter family and every input frame and frequency, `route` returns the
node state unchanged, so every subsequent `tick` call behaves exactly as if
`route` had not been called. -/
theorem route_pure (bq : Biquad) (bl : ButterLowpass) (rz : Resonator) (lp : Lowpole)
    (dc : DCBlock) (pk : Pinkpass) (ap : Allpole) (hp : Highpole)
    (input : SignalFrame) (frequency : ℝ) (n : Nat) (x : List ℝ) :
    ((bq.route input frequency).1 = bq ∧
      (bq.route input frequency).1.tick x = bq.tick x) ∧
    ((bl.route input frequency).1 = bl ∧
      ((bl.route input frequency).1.tick n x : ButterLowpass × List ℝ) = bl.tick n x) ∧
    ((rz.route input frequency).1 = rz ∧
      (rz.route input frequency).1.tick n x = rz.tick n x) ∧
    ((lp.route input frequency).1 = lp ∧
      (lp.route input frequency).1.tick n x = lp.tick n x) ∧
    ((dc.route input frequency).1 = dc ∧
      (dc.route input frequency).1.tick x = dc.tick x) ∧
    ((pk.route input frequency).1 = pk ∧
      (pk.route input frequency).1.tick x = pk.tick x) ∧
    ((ap.route input frequency).1 = ap ∧
      (ap.route input frequency).1.tick n x = ap.tick n x) ∧
    ((hp.route input frequency).1 = hp ∧
      (hp.route input frequency).1.tick n x = hp.tick n x) :=
  ⟨⟨rfl, rfl⟩, ⟨rfl, rfl⟩, ⟨rfl, rfl⟩, ⟨rfl, rfl⟩,
    ⟨rfl, rfl⟩, ⟨rfl, rfl⟩, ⟨rfl, rfl⟩, ⟨rfl, rfl⟩⟩

/-- C4: for every filter node with an optional runtime-modulation input,
`tick` recomputes the filter coefficients exactly when the modulating input
differs from the stored parameter, and leaves them unchanged when it is equal.
For the first-order allpass, whose stored parameter is the derived coefficient
`eta` itself, the coefficient recomputed from the delay input coincides with
the stored one whenever the input corresponds to it. -/
theorem mod_input_recompute
    (bl : ButterLowpass) (rz : Resonator) (lp : Lowpole) (hp : Highpole) (ap : Allpole)
    (x c cen bw d : ℝ) :
    ((c = bl.cutoff →
        (ButterLowpass.tick 2 bl [x, c]).1.biquad.coefs = bl.biquad.coefs ∧
        (ButterLowpass.tick 2 bl [x, c]).1.cutoff = bl.cutoff) ∧
      (c ≠ bl.cutoff →
        (ButterLowpass.tick 2 bl [x, c]).1.biquad.coefs =
          BiquadCoefs.butter_lowpass bl.sample_rate c ∧
        (ButterLowpass.tick 2 bl [x, c]).1.cutoff = c)) ∧
    ((cen = rz.center ∧ bw = rz.bandwidth →
        (Resonator.tick 3 rz [x, cen, bw]).1.biquad.coefs = rz.biquad.coefs ∧
        (Resonator.tick 3 rz [x, cen, bw]).1.center = rz.center ∧
        (Resonator.tick 3 rz [x, cen, bw]).1.bandwidth = rz.bandwidth) ∧
      (¬(cen = rz.center ∧ bw = rz.bandwidth) →
        (Resonator.tick 3 rz [x, cen, bw]).1.biquad.coefs =
          BiquadCoefs.resonator rz.sample_rate cen bw)) ∧
    ((c = lp.cutoff →
        (Lowpole.tick 2 lp [x, c]).1.coeff = lp.coeff ∧
        (Lowpole.tick 2 lp [x, c]).1.cutoff = lp.cutoff) ∧
      (c ≠ lp.cutoff →
        (Lowpole.tick 2 lp [x, c]).1.coeff =
          Real.exp (-(2 * Real.pi) * c / lp.sample_rate))) ∧
    ((c = hp.cutoff →
        (Highpole.tick 2 hp [x, c]).1.coeff = hp.coeff ∧
        (Highpole.tick 2 hp [x, c]).1.cutoff = hp.cutoff) ∧
      (c ≠ hp.cutoff →
        (Highpole.tick 2 hp [x, c]).1.coeff =
          Real.exp (-(2 * Real.pi) * c / hp.sample_rate))) ∧
    (((1 - d) / (1 + d) = ap.eta → (Allpole.tick 2 ap [x, d]).1.eta = ap.eta) ∧
      ((Allpole.tick 2 ap [x, d]).1.eta ≠ ap.eta → (1 - d) / (1 + d) ≠ ap.eta)) := by
  refine ⟨⟨?_, ?_⟩, ⟨?_, ?_⟩, ⟨?_, ?_⟩, ⟨?_, ?_⟩, ⟨?_, ?_⟩⟩
  · intro h
    simp [ButterLowpass.tick, Biquad.tick, h]
  · intro h
    simp [ButterLowpass.tick, ButterLowpass.set_cutoff, Biquad.tick, h]
  · intro h
    simp [Resonator.tick, Biquad.tick, h.1, h.2]
  · intro h
    rw [Classical.not_and_iff_or_not_not] at h
    simp only [Resonator.tick, List.getD]
    rw [if_pos (by norm_num), if_pos (by tauto)]
    simp [Biquad.tick]
  · intro h
    simp [Lowpole.tick, h]
  · intro h
    simp [Lowpole.tick, Lowpole.set_cutoff, h]
  · intro h
    simp [Highpole.tick, h]
  · intro h
    simp [Highpole.tick, Highpole.set_cutoff, h]
  · intro h
    simp [Allpole.tick, Allpole.set_delay, h]
  · intro h hne
    apply h
    simp [Allpole.tick, Allpole.set_delay, hne]

/-- C5 counterexample: `Resonator::new` with a non-positive bandwidth does not
panic; the constructor contains no assertion and returns a value. -/
theorem resonator_new_no_assert : Resonator.new 440 (-1) ≠ none := by
  simp [Resonator.new]

/-- C5 (amended): `Allpole::new(d)` hits its `assert!(delay > 0)` for every
delay `d <= 0` and returns normally otherwise; `Resonator::new` performs no
bandwidth validation and returns normally for every bandwidth, including
non-positive ones. Neither returns a value-level error. -/
theorem ctor_assertion (d cen bw : ℝ) :
    (d ≤ 0 → Allpole.new d = none) ∧
    (0 < d → Allpole.new d ≠ none) ∧
    Resonator.new cen bw ≠ none := by
  refine ⟨?_, ?_, ?_⟩
  · intro h
    simp [Allpole.new, not_lt.mpr h]
  · intro h
    simp [Allpole.new, h]
  · simp [Resonator.new]

theorem from_polar_one_re (theta : ℝ) : (from_polar 1 theta).re = Real.cos theta := by
  simp [from_polar, Complex.exp_ofReal_mul_I_re]

theorem from_polar_one_im (theta : ℝ) : (from_polar 1 theta).im = Real.sin theta := by
  simp [from_polar, Complex.exp_ofReal_mul_I_im]

theorem abs_from_polar_one (theta : ℝ) : Complex.abs (from_polar 1 theta) = 1 := by
  simp [from_polar, Complex.abs_exp_ofReal_mul_I]

/-- C8: allpass unity gain. For every delay `d > 0` (hence the coefficient
`eta = (1-d)/(1+d)` derived from it through `set_delay`), every sample rate,
every frequency, and every filter history, the routed response of the
first-order allpass carries a complex gain of magnitude exactly 1. -/
theorem allpass_unity (d f sr e0 x1 y1 : ℝ) (hd : 0 < d) :
    ∃ g : ℂ,
      ((Allpole.set_delay ⟨e0, x1, y1, sr⟩ d).route [Signal.response 1 0] f).2 =
        [Signal.response g 0] ∧ Complex.abs g = 1 := by
  have h1d : (0 : ℝ) < 1 + d := by linarith
  set z : ℂ := from_polar 1 (-(f * (2 * Real.pi) / sr)) with hz
  refine ⟨(1 : ℂ) * ((((1 - d) / (1 + d) : ℝ) : ℂ) + z) /
      (1 + (((1 - d) / (1 + d) : ℝ) : ℂ) * z), ?_, ?_⟩
  · simp [Allpole.route, Allpole.set_delay, Signal.filter, hz]
  · set η : ℝ := (1 - d) / (1 + d) with hη
    have hηlt : |η| < 1 := by
      rw [abs_lt, hη]
      constructor
      · rw [lt_div_iff h1d]
        linarith
      · rw [div_lt_one h1d]
        linarith
    have habs_z : Complex.abs z = 1 := abs_from_polar_one _
    have hzz : z * (starRingEnd ℂ) z = 1 := by
      rw [Complex.mul_conj, Complex.normSq_eq_abs, habs_z]
      norm_num
    have hnum_den : Complex.abs ((η : ℂ) + z) = Complex.abs (1 + (η : ℂ) * z) := by
      have h1 : (1 : ℂ) + (η : ℂ) * z = z * ((starRingEnd ℂ) z + (η : ℂ)) := by
        rw [mul_add, hzz]
        ring
      have h2 : (starRingEnd ℂ) z + (η : ℂ) = (starRingEnd ℂ) (z + (η : ℂ)) := by
        rw [map_add, Complex.conj_ofReal]
      rw [h1, map_mul, habs_z, one_mul, h2, Complex.abs_conj, add_comm]
    have hden_ne : (1 : ℂ) + (η : ℂ) * z ≠ 0 := by
      intro h0
      have hneg : (η : ℂ) * z = -1 := by linear_combination h0
      have habs1 : Complex.abs ((η : ℂ) * z) = 1 := by rw [hneg]; simp
      rw [map_mul, Complex.abs_ofReal, habs_z, mul_one] at habs1
      exact absurd habs1 (ne_of_lt hηlt)
    rw [one_mul, map_div₀, hnum_den]
    exact div_self (Complex.abs.ne_zero hden_ne)

/-- C8 witness at delay 1, frequency 440, sample rate 44100, zero history. -/
theorem allpass_unity_witness :
    (0 : ℝ) < 1 ∧
    ∃ g : ℂ,
      ((Allpole.set_delay ⟨0, 0, 0, 44100⟩ 1).route [Signal.response 1 0] 440).2 =
        [Signal.response g 0] ∧ Complex.abs g = 1 :=
  ⟨by norm_num, allpass_unity 1 440 44100 0 0 0 (by norm_num)⟩

theorem butter_abs_aux (q s co t den b0 a1 a2 : ℝ) (z : ℂ)
    (hs : 0 < s) (hco : 0 < co) (hq : 0 < q)
    (hpyth : s ^ 2 + co ^ 2 = 1)
    (ht : t = s / co) (hden : den = 1 + q * s * co)
    (hb0 : b0 = t * t * (1 / (1 + q * t + t * t)))
    (ha1 : a1 = (2 * t * t - 2) * (1 / (1 + q * t + t * t)))
    (ha2 : a2 = (1 - q * t + t * t) * (1 / (1 + q * t + t * t)))
    (hzre : z.re = co ^ 2 - s ^ 2) (hzim : z.im = -(2 * (s * co))) :
    Complex.abs (((b0 : ℝ) : ℂ) + ((2 * b0 : ℝ) : ℂ) * z + ((b0 : ℝ) : ℂ) * (z * z)) /
      Complex.abs ((1 : ℂ) + ((a1 : ℝ) : ℂ) * z + ((a2 : ℝ) : ℂ) * (z * z)) = q⁻¹ := by
  have hcone : co ≠ 0 := ne_of_gt hco
  have hsne : s ≠ 0 := ne_of_gt hs
  have hqne : q ≠ 0 := ne_of_gt hq
  have hdenpos : 0 < den := by
    rw [hden]
    nlinarith [mul_pos (mul_pos hq hs) hco]
  have hdenne : den ≠ 0 := ne_of_gt hdenpos
  have hsum : 1 + q * t + t * t = den / co ^ 2 := by
    rw [ht, hden]
    field_simp
    linear_combination co ^ 3 * hpyth
  have hb0' : b0 = s ^ 2 / den := by
    rw [hb0, hsum, ht]
    field_simp
    ring
  have ha1' : a1 = (2 * s ^ 2 - 2 * co ^ 2) / den := by
    rw [ha1, hsum, ht]
    field_simp
    ring
  have ha2' : a2 = (1 - q * s * co) / den := by
    rw [ha2, hsum, ht]
    field_simp
    linear_combination co ^ 3 * den * hpyth
  have h1a2 : 1 - a2 = 2 * (q * s * co) / den := by
    rw [ha2', hden]
    field_simp
    ring
  have hkey : a1 = -((1 + a2) * z.re) := by
    rw [ha1', ha2', hzre, hden]
    field_simp
    ring
  have hzsq : z.re ^ 2 + z.im ^ 2 = 1 := by
    rw [hzre, hzim]
    linear_combination (s ^ 2 + co ^ 2 + 1) * hpyth
  have hN : (((b0 : ℝ) : ℂ) + ((2 * b0 : ℝ) : ℂ) * z + ((b0 : ℝ) : ℂ) * (z * z)) =
      ((b0 : ℝ) : ℂ) * (1 + z) ^ 2 := by
    push_cast
    ring
  have hD : ((1 : ℂ) + ((a1 : ℝ) : ℂ) * z + ((a2 : ℝ) : ℂ) * (z * z)) =
      (((1 - a2) * z.im : ℝ) : ℂ) * (((z.im : ℝ) : ℂ) - ((z.re : ℝ) : ℂ) * Complex.I) := by
    apply Complex.ext
    · simp only [Complex.add_re, Complex.mul_re, Complex.mul_im, Complex.ofReal_re,
        Complex.ofReal_im, Complex.I_re, Complex.I_im, Complex.one_re, Complex.sub_re,
        Complex.sub_im]
      ring_nf
      linear_combination z.re * hkey - hzsq
    · simp only [Complex.add_im, Complex.mul_re, Complex.mul_im, Complex.ofReal_re,
        Complex.ofReal_im, Complex.I_re, Complex.I_im, Complex.one_im, Complex.sub_re,
        Complex.sub_im]
      ring_nf
      linear_combination z.im * hkey
  rw [hN, hD, map_mul, map_mul, map_pow]
  have habs1z : Complex.abs (1 + z) = 2 * co := by
    rw [Complex.abs_apply, Complex.normSq_apply]
    have h1 : (1 + z).re = 1 + z.re := by simp
    have h2 : (1 + z).im = z.im := by simp
    rw [h1, h2, hzre, hzim]
    rw [show (1 + (co ^ 2 - s ^ 2)) * (1 + (co ^ 2 - s ^ 2)) +
        -(2 * (s * co)) * -(2 * (s * co)) = (2 * co) ^ 2 from by
      linear_combination (s ^ 2 + co ^ 2 - 1) * hpyth]
    exact Real.sqrt_sq (by linarith)
  have habsb0 : Complex.abs ((b0 : ℝ) : ℂ) = s ^ 2 / den := by
    rw [Complex.abs_ofReal, hb0', abs_of_pos (div_pos (pow_pos hs 2) hdenpos)]
  have habsfac : Complex.abs (((1 - a2) * z.im : ℝ) : ℂ) = 4 * q * s ^ 2 * co ^ 2 / den := by
    rw [Complex.abs_ofReal, h1a2, hzim]
    rw [show 2 * (q * s * co) / den * -(2 * (s * co)) =
        -(4 * q * s ^ 2 * co ^ 2 / den) from by ring]
    rw [abs_neg, abs_of_pos]
    apply div_pos _ hdenpos
    nlinarith [mul_pos (mul_pos hq (mul_pos hs hs)) (mul_pos hco hco)]
  have habsunit : Complex.abs (((z.im : ℝ) : ℂ) - ((z.re : ℝ) : ℂ) * Complex.I) = 1 := by
    rw [Complex.abs_apply, Complex.normSq_apply]
    simp only [Complex.sub_re, Complex.sub_im, Complex.mul_re, Complex.mul_im,
      Complex.I_re, Complex.I_im, Complex.ofReal_re, Complex.ofReal_im]
    rw [show (z.im - (z.re * 0 - 0 * 1)) * (z.im - (z.re * 0 - 0 * 1)) +
        (0 - (z.re * 1 + 0 * 0)) * (0 - (z.re * 1 + 0 * 0)) = 1 from by
      linear_combination hzsq]
    exact Real.sqrt_one
  rw [habsb0, habs1z, habsfac, habsunit, mul_one]
  field_simp
  ring

/-- C9: Butterworth cutoff attenuation. For every sample rate `r > 0` and
cutoff `c` with `0 < c < r/2`, the biquad coefficients produced by
`butter_lowpass(r, c)`, evaluated through the z-domain `response` formula at
`omega = c/r`, have magnitude exactly `1/sqrt 2` (-3 dB) at the cutoff. -/
theorem butter_minus3db (r c : ℝ) (hr : 0 < r) (hc : 0 < c) (hcr : c < r / 2) :
    Complex.abs ((BiquadCoefs.butter_lowpass r c).response (c / r)) = (Real.sqrt 2)⁻¹ := by
  have hπ := Real.pi_pos
  have hφpos : 0 < c * Real.pi / r := by positivity
  have hφlt : c * Real.pi / r < Real.pi / 2 := by
    rw [div_lt_div_iff hr two_pos]
    nlinarith
  have hs : 0 < Real.sin (c * Real.pi / r) :=
    Real.sin_pos_of_pos_of_lt_pi hφpos (by linarith)
  have hco : 0 < Real.cos (c * Real.pi / r) :=
    Real.cos_pos_of_mem_Ioo ⟨by linarith, hφlt⟩
  have hpyth : Real.sin (c * Real.pi / r) ^ 2 + Real.cos (c * Real.pi / r) ^ 2 = 1 :=
    Real.sin_sq_add_cos_sq _
  have hq : (0 : ℝ) < Real.sqrt 2 := Real.sqrt_pos.mpr (by norm_num)
  have hzre : (from_polar 1 (-(2 * Real.pi) * (c / r))).re
      = Real.cos (c * Real.pi / r) ^ 2 - Real.sin (c * Real.pi / r) ^ 2 := by
    rw [from_polar_one_re]
    rw [show -(2 * Real.pi) * (c / r) = -(2 * (c * Real.pi / r)) from by ring]
    rw [Real.cos_neg, Real.cos_two_mul]
    linear_combination hpyth
  have hzim : (from_polar 1 (-(2 * Real.pi) * (c / r))).im
      = -(2 * (Real.sin (c * Real.pi / r) * Real.cos (c * Real.pi / r))) := by
    rw [from_polar_one_im]
    rw [show -(2 * Real.pi) * (c / r) = -(2 * (c * Real.pi / r)) from by ring]
    rw [Real.sin_neg, Real.sin_two_mul]
    ring
  rw [show (BiquadCoefs.butter_lowpass r c).response (c / r) =
      ((((BiquadCoefs.butter_lowpass r c).b0 : ℝ) : ℂ)
          + ((2 * (BiquadCoefs.butter_lowpass r c).b0 : ℝ) : ℂ)
            * from_polar 1 (-(2 * Real.pi) * (c / r))
          + (((BiquadCoefs.butter_lowpass r c).b0 : ℝ) : ℂ)
            * (from_polar 1 (-(2 * Real.pi) * (c / r))
                * from_polar 1 (-(2 * Real.pi) * (c / r)))) /
        ((1 : ℂ)
          + (((BiquadCoefs.butter_lowpass r c).a1 : ℝ) : ℂ)
            * from_polar 1 (-(2 * Real.pi) * (c / r))
          + (((BiquadCoefs.butter_lowpass r c).a2 : ℝ) : ℂ)
            * (from_polar 1 (-(2 * Real.pi) * (c / r))
                * from_polar 1 (-(2 * Real.pi) * (c / r)))) from rfl]
  rw [map_div₀]
  exact butter_abs_aux (Real.sqrt 2) (Real.sin (c * Real.pi / r)) (Real.cos (c * Real.pi / r))
    (Real.tan (c * Real.pi / r))
    (1 + Real.sqrt 2 * Real.sin (c * Real.pi / r) * Real.cos (c * Real.pi / r))
    ((BiquadCoefs.butter_lowpass r c).b0) ((BiquadCoefs.butter_lowpass r c).a1)
    ((BiquadCoefs.butter_lowpass r c).a2) (from_polar 1 (-(2 * Real.pi) * (c / r)))
    hs hco hq hpyth (Real.tan_eq_sin_div_cos _) rfl rfl rfl rfl hzre hzim

/-- C9 witness at sample rate 4 and cutoff 1. -/
theorem butter_minus3db_witness :
    ((0 : ℝ) < 4 ∧ (0 : ℝ) < 1 ∧ (1 : ℝ) < 4 / 2) ∧
    Complex.abs ((BiquadCoefs.butter_lowpass 4 1).response (1 / 4)) = (Real.sqrt 2)⁻¹ :=
  ⟨⟨by norm_num, by norm_num, by norm_num⟩,
    butter_minus3db 4 1 (by norm_num) (by norm_num) (by norm_num)⟩

/-- Block rate adapter state from `audiounit.rs`, wrapping a zero-input
source. In the embedding the wrapped deterministic source is represented by
its output stream `gen` (channel, sample index), passed to each operation,
together with the count `time` of samples the source has produced so far: a
zero-input unit obeying the process-equals-tick-sequence law of the unit
contract is observationally exactly such a stream. `buffer` holds one block
per channel, `index` is the read cursor, and `index = MAX_BUFFER_SIZE` is the
needs-refill state; the cursor bound maintained by every operation is carried
as the field `hidx`. -/
structure BlockRateAdapter (α : Type) where
  channels : Nat
  buffer : Nat → Nat → α
  index : Nat
  time : Nat
  hidx : index ≤ MAX_BUFFER_SIZE

/-- Refill step of the adapter: the wrapped unit's `process` over a full
block writes the next `MAX_BUFFER_SIZE` samples of each channel into the
buffer, and the cursor rewinds to 0. -/
def braRefill {α : Type} (gen : Nat → Nat → α) (st : BlockRateAdapter α) :
    BlockRateAdapter α :=
  ⟨st.channels, fun ch i => gen ch (st.time + i), 0, st.time + MAX_BUFFER_SIZE,
    Nat.zero_le _⟩

theorem refill_or_self_index_lt {α : Type} (gen : Nat → Nat → α)
    (st : BlockRateAdapter α) :
    (if st.index = MAX_BUFFER_SIZE then braRefill gen st else st).index
      < MAX_BUFFER_SIZE := by
  split
  · simp [braRefill, MAX_BUFFER_SIZE]
  · have h1 := st.hidx
    omega

/-- `BlockRateAdapter::tick` from `audiounit.rs`: refill when the cursor is
exhausted, emit one sample per channel, advance the cursor. -/
def braTick {α : Type} (gen : Nat → Nat → α) (st : BlockRateAdapter α) :
    BlockRateAdapter α × (Nat → List α) :=
  let st1 := if st.index = MAX_BUFFER_SIZE then braRefill gen st else st
  (⟨st1.channels, st1.buffer, st1.index + 1, st1.time,
      refill_or_self_index_lt gen st⟩,
    fun ch => if ch < st1.channels then [st1.buffer ch st1.index] else [])

/-- `BlockRateAdapter::process` from `audiounit.rs`: consume `remaining`
samples, copying runs out of the buffer and refilling as the cursor empties.
The emitted samples are returned per channel in order. -/
def braProcessGo {α : Type} (gen : Nat → Nat → α) (st : BlockRateAdapter α)
    (remaining : Nat) : BlockRateAdapter α × (Nat → List α) :=
  if hr : remaining = 0 then (st, fun _ => [])
  else
    let st1 := if st.index = MAX_BUFFER_SIZE then braRefill gen st else st
    have hlt : st1.index < MAX_BUFFER_SIZE := refill_or_self_index_lt gen st
    let n := min remaining (MAX_BUFFER_SIZE - st1.index)
    let out1 : Nat → List α := fun ch =>
      if ch < st1.channels then
        (List.range n).map fun j => st1.buffer ch (st1.index + j)
      else []
    let st2 : BlockRateAdapter α :=
      ⟨st1.channels, st1.buffer, st1.index + n, st1.time, by omega⟩
    let rest := braProcessGo gen st2 (remaining - n)
    (rest.1, fun ch => out1 ch ++ rest.2 ch)
termination_by remaining
decreasing_by
  show remaining - remaining ⊓ (MAX_BUFFER_SIZE - st1.index) < remaining
  omega

/-- `BlockRateAdapter::reset` from `audiounit.rs`: reset the wrapped unit
(the stream position returns to 0) and set the cursor to the needs-refill
state. -/
def braReset {α : Type} (st : BlockRateAdapter α) : BlockRateAdapter α :=
  ⟨st.channels, st.buffer, MAX_BUFFER_SIZE, 0, le_refl _⟩

/-- A freshly constructed adapter (after the arity assertion): channel count
taken from the wrapped unit, empty buffer, cursor in the needs-refill state. -/
def braNew {α : Type} (channels : Nat) (z : α) : BlockRateAdapter α :=
  ⟨channels, fun _ _ => z, MAX_BUFFER_SIZE, 0, le_refl _⟩

/-- `BlockRateAdapter::new` from `audiounit.rs`: `assert_eq!(unit.inputs(), 0)`
at construction, modelled as `none` on violation; the wrapped unit has `ins`
inputs and `outs` outputs. -/
def braNewChecked {α : Type} (ins outs : Nat) (z : α) : Option (BlockRateAdapter α) :=
  if ins = 0 then some (braNew outs z) else none

/-- `BlockRateAdapter::inputs` returns the constant 0. -/
def braInputs {α : Type} (_ : BlockRateAdapter α) : Nat := 0

/-- `BlockRateAdapter::outputs` returns the stored channel count. -/
def braOutputs {α : Type} (st : BlockRateAdapter α) : Nat := st.channels

/-- One call made by the caller against the adapter: a `tick` or a `process`
of a chosen size. -/
inductive BraCall where
  | tick : BraCall
  | proc (size : Nat) : BraCall

/-- Number of output samples per channel a call produces. -/
def braCallLen : BraCall → Nat
  | BraCall.tick => 1
  | BraCall.proc n => n

/-- Total number of output samples per channel of a call sequence. -/
def braTotal (calls : List BraCall) : Nat :=
  (calls.map braCallLen).sum

/-- Drive the adapter with a sequence of tick/process calls, concatenating
the per-channel outputs. -/
def braRun {α : Type} (gen : Nat → Nat → α) (st : BlockRateAdapter α) :
    List BraCall → BlockRateAdapter α × (Nat → List α)
  | [] => (st, fun _ => [])
  | c :: rest =>
    let p := match c with
      | BraCall.tick => braTick gen st
      | BraCall.proc n => braProcessGo gen st n
    let q := braRun gen p.1 rest
    (q.1, fun ch => p.2 ch ++ q.2 ch)

/-- The samples the wrapped unit produces on channel `ch` when driven
directly sample-by-sample, for sample indices `k, k+1, ..., k+n-1`. -/
def streamSeg {α : Type} (gen : Nat → Nat → α) (ch k n : Nat) : List α :=
  (List.range n).map fun j => gen ch (k + j)

/-- Adapter state consistency after `k` samples have been consumed: either
the cursor is exhausted and the wrapped unit is exactly at position `k`, or
the buffer holds the block ending at the unit position and the cursor marks
`k` inside it. -/
def braGood {α : Type} (gen : Nat → Nat → α) (k : Nat) (st : BlockRateAdapter α) : Prop :=
  (st.index = MAX_BUFFER_SIZE ∧ st.time = k) ∨
  (st.index < MAX_BUFFER_SIZE ∧ MAX_BUFFER_SIZE ≤ st.time ∧
    st.time = k + (MAX_BUFFER_SIZE - st.index) ∧
    ∀ ch i, i < MAX_BUFFER_SIZE →
      st.buffer ch i = gen ch (st.time - MAX_BUFFER_SIZE + i))

theorem streamSeg_append {α : Type} (gen : Nat → Nat → α) (ch k m n : Nat) :
    streamSeg gen ch k m ++ streamSeg gen ch (k + m) n = streamSeg gen ch k (m + n) := by
  simp only [streamSeg, List.range_add, List.map_append, List.map_map]
  congr 1
  apply List.map_congr_left
  intro a _
  simp only [Function.comp_apply]
  congr 1
  omega

theorem braTick_good {α : Type} (gen : Nat → Nat → α) (k : Nat)
    (st : BlockRateAdapter α) (h : braGood gen k st) :
    braGood gen (k + 1) (braTick gen st).1 ∧
    (braTick gen st).1.channels = st.channels ∧
    (braTick gen st).2 = fun ch => if ch < st.channels then [gen ch k] else [] := by
  simp only [braTick]
  set S : BlockRateAdapter α :=
    if st.index = MAX_BUFFER_SIZE then braRefill gen st else st with hS
  have hSfacts : S.index < MAX_BUFFER_SIZE ∧ MAX_BUFFER_SIZE ≤ S.time ∧
      S.time = k + (MAX_BUFFER_SIZE - S.index) ∧ S.channels = st.channels ∧
      ∀ ch i, i < MAX_BUFFER_SIZE →
        S.buffer ch i = gen ch (S.time - MAX_BUFFER_SIZE + i) := by
    rcases h with ⟨hidx, htime⟩ | ⟨hidx, htime64, htime, hbuf⟩
    · rw [hS, if_pos hidx]
      refine ⟨by simp [braRefill, MAX_BUFFER_SIZE], ?_, ?_, rfl, ?_⟩
      · show MAX_BUFFER_SIZE ≤ st.time + MAX_BUFFER_SIZE
        omega
      · show st.time + MAX_BUFFER_SIZE = k + (MAX_BUFFER_SIZE - 0)
        omega
      · intro ch i _
        show gen ch (st.time + i) = gen ch (st.time + MAX_BUFFER_SIZE - MAX_BUFFER_SIZE + i)
        congr 1 <;> omega
    · rw [hS, if_neg (Nat.ne_of_lt hidx)]
      exact ⟨hidx, htime64, htime, rfl, hbuf⟩
  obtain ⟨hlt1, htime64, htime, hch1, hbuf⟩ := hSfacts
  refine ⟨?_, hch1, ?_⟩
  · by_cases h64 : S.index + 1 = MAX_BUFFER_SIZE
    · refine Or.inl ⟨h64, ?_⟩
      show S.time = k + 1
      omega
    · refine Or.inr ⟨?_, ?_, ?_, ?_⟩
      · show S.index + 1 < MAX_BUFFER_SIZE
        omega
      · show MAX_BUFFER_SIZE ≤ S.time
        exact htime64
      · show S.time = k + 1 + (MAX_BUFFER_SIZE - (S.index + 1))
        omega
      · show ∀ ch i, i < MAX_BUFFER_SIZE →
            S.buffer ch i = gen ch (S.time - MAX_BUFFER_SIZE + i)
        exact hbuf
  · funext ch
    rw [hch1]
    split
    · rw [hbuf ch S.index hlt1]
      simp only [List.cons.injEq, and_true]
      congr 1
      omega
    · rfl

theorem braProcessGo_good {α : Type} (gen : Nat → Nat → α) (r : Nat) :
    ∀ (k : Nat) (st : BlockRateAdapter α), braGood gen k st →
    braGood gen (k + r) (braProcessGo gen st r).1 ∧
    (braProcessGo gen st r).1.channels = st.channels ∧
    (braProcessGo gen st r).2 =
      fun ch => if ch < st.channels then streamSeg gen ch k r else [] := by
  induction r using Nat.strong_induction_on with
  | _ r ih =>
    intro k st h
    by_cases hr : r = 0
    · subst hr
      have h0 : braProcessGo gen st 0 = (st, fun _ => []) := by
        rw [braProcessGo]
        simp
      rw [h0]
      refine ⟨h, rfl, ?_⟩
      funext ch
      split <;> simp [streamSeg]
    · rw [braProcessGo]
      simp only [dif_neg hr]
      set S : BlockRateAdapter α :=
        if st.index = MAX_BUFFER_SIZE then braRefill gen st else st with hS
      have hSfacts : S.index < MAX_BUFFER_SIZE ∧ MAX_BUFFER_SIZE ≤ S.time ∧
          S.time = k + (MAX_BUFFER_SIZE - S.index) ∧ S.channels = st.channels ∧
          ∀ ch i, i < MAX_BUFFER_SIZE →
            S.buffer ch i = gen ch (S.time - MAX_BUFFER_SIZE + i) := by
        rcases h with ⟨hidx, htime⟩ | ⟨hidx, htime64, htime, hbuf⟩
        · rw [hS, if_pos hidx]
          refine ⟨by simp [braRefill, MAX_BUFFER_SIZE], ?_, ?_, rfl, ?_⟩
          · show MAX_BUFFER_SIZE ≤ st.time + MAX_BUFFER_SIZE
            omega
          · show st.time + MAX_BUFFER_SIZE = k + (MAX_BUFFER_SIZE - 0)
            omega
          · intro ch i _
            show gen ch (st.time + i)
                = gen ch (st.time + MAX_BUFFER_SIZE - MAX_BUFFER_SIZE + i)
            congr 1 <;> omega
        · rw [hS, if_neg (Nat.ne_of_lt hidx)]
          exact ⟨hidx, htime64, htime, rfl, hbuf⟩
      obtain ⟨hlt1, htime64, htime, hch1, hbuf⟩ := hSfacts
      set n : Nat := min r (MAX_BUFFER_SIZE - S.index) with hn
      have hn1 : 1 ≤ n := by omega
      have hnr : n ≤ r := by omega
      have hn64 : S.index + n ≤ MAX_BUFFER_SIZE := by omega
      have hgood2 : braGood gen (k + n)
          (⟨S.channels, S.buffer, S.index + n, S.time, hn64⟩ : BlockRateAdapter α) := by
        by_cases h64 : S.index + n = MAX_BUFFER_SIZE
        · refine Or.inl ⟨h64, ?_⟩
          show S.time = k + n
          omega
        · refine Or.inr ⟨?_, ?_, ?_, ?_⟩
          · show S.index + n < MAX_BUFFER_SIZE
            omega
          · show MAX_BUFFER_SIZE ≤ S.time
            exact htime64
          · show S.time = k + n + (MAX_BUFFER_SIZE - (S.index + n))
            omega
          · show ∀ ch i, i < MAX_BUFFER_SIZE →
                S.buffer ch i = gen ch (S.time - MAX_BUFFER_SIZE + i)
            exact hbuf
      have hrec := ih (r - n) (by omega) (k + n)
        ⟨S.channels, S.buffer, S.index + n, S.time, hn64⟩ hgood2
      obtain ⟨hrg, hrch, hrout⟩ := hrec
      refine ⟨?_, ?_, ?_⟩
      · have heq : k + n + (r - n) = k + r := by omega
        rw [heq] at hrg
        exact hrg
      · rw [hrch]
        exact hch1
      · funext ch
        rw [hrout]
        show (if ch < S.channels then
            (List.range n).map fun j => S.buffer ch (S.index + j)
          else []) ++
            (if ch < S.channels then streamSeg gen ch (k + n) (r - n) else []) =
          if ch < st.channels then streamSeg gen ch k r else []
        rw [hch1]
        split
        · have hseg : ((List.range n).map fun j => S.buffer ch (S.index + j))
              = streamSeg gen ch k n := by
            apply List.map_congr_left
            intro j hj
            have hj' : j < n := List.mem_range.mp hj
            rw [hbuf ch (S.index + j) (by omega)]
            congr 1
            omega
          rw [hseg, streamSeg_append]
          congr 1
          omega
        · rfl

theorem braRun_good {α : Type} (gen : Nat → Nat → α) (calls : List BraCall) :
    ∀ (k : Nat) (st : BlockRateAdapter α), braGood gen k st →
    braGood gen (k + braTotal calls) (braRun gen st calls).1 ∧
    (braRun gen st calls).1.channels = st.channels ∧
    (braRun gen st calls).2 =
      fun ch => if ch < st.channels then streamSeg gen ch k (braTotal calls) else [] := by
  induction calls with
  | nil =>
    intro k st h
    refine ⟨h, rfl, ?_⟩
    funext ch
    split <;> simp [braRun, streamSeg, braTotal]
  | cons c rest ih =>
    intro k st h
    have hstep : braGood gen (k + braCallLen c)
          (match c with
            | BraCall.tick => braTick gen st
            | BraCall.proc n => braProcessGo gen st n).1 ∧
        (match c with
          | BraCall.tick => braTick gen st
          | BraCall.proc n => braProcessGo gen st n).1.channels = st.channels ∧
        (match c with
          | BraCall.tick => braTick gen st
          | BraCall.proc n => braProcessGo gen st n).2 =
          fun ch => if ch < st.channels then streamSeg gen ch k (braCallLen c) else [] := by
      cases c with
      | tick =>
        obtain ⟨h1, h2, h3⟩ := braTick_good gen k st h
        refine ⟨h1, h2, ?_⟩
        rw [h3]
        funext ch
        split
        · simp [streamSeg, braCallLen, List.range_succ]
        · rfl
      | proc n =>
        exact braProcessGo_good gen n k st h
    obtain ⟨h1, h2, h3⟩ := hstep
    obtain ⟨g1, g2, g3⟩ := ih (k + braCallLen c) _ h1
    refine ⟨?_, ?_, ?_⟩
    · have heq : k + braCallLen c + braTotal rest = k + braTotal (c :: rest) := by
        simp [braTotal]
        omega
      rw [heq] at g1
      exact g1
    · exact g2.trans h2
    · funext ch
      show (match c with
          | BraCall.tick => braTick gen st
          | BraCall.proc n => braProcessGo gen st n).2 ch ++
          (braRun gen (match c with
            | BraCall.tick => braTick gen st
            | BraCall.proc n => braProcessGo gen st n).1 rest).2 ch = _
      rw [h3, g3, h2]
      dsimp only
      by_cases hch : ch < st.channels
      · rw [if_pos hch, if_pos hch, streamSeg_append, if_pos hch]
        congr 1
      · rw [if_neg hch, if_neg hch, if_neg hch]
        rfl

/-- C1: chunk-size invariance of the block-rate adapter. For every zero-input
wrapped unit (represented by its deterministic per-channel output stream
`gen`) and every sequence of `process`/`tick` calls, the concatenated output
of the adapter on each channel equals the stream prefix obtained by driving
the wrapped unit directly sample-by-sample, regardless of how the caller
splits the total into chunk sizes; and `reset` restores the internal cursor to
the needs-refill state, after which the adapter again produces the stream from
its start. -/
theorem blockrate_chunk_invariance (α : Type) (gen : Nat → Nat → α) (z : α)
    (nch : Nat) (calls : List BraCall) (st : BlockRateAdapter α) (ch : Nat)
    (h1 : ch < nch) (h2 : ch < st.channels) :
    (braRun gen (braNew nch z) calls).2 ch = streamSeg gen ch 0 (braTotal calls) ∧
    (braReset st).index = MAX_BUFFER_SIZE ∧
    (braRun gen (braReset st) calls).2 ch = streamSeg gen ch 0 (braTotal calls) := by
  have hnew : braGood gen 0 (braNew nch z) := Or.inl ⟨rfl, rfl⟩
  have hreset : braGood gen 0 (braReset st) := Or.inl ⟨rfl, rfl⟩
  obtain ⟨-, -, hout1⟩ := braRun_good gen calls 0 (braNew nch z) hnew
  obtain ⟨-, -, hout2⟩ := braRun_good gen calls 0 (braReset st) hreset
  refine ⟨?_, rfl, ?_⟩
  · rw [hout1]
    show (if ch < nch then streamSeg gen ch 0 (braTotal calls) else []) = _
    rw [if_pos h1]
  · rw [hout2]
    show (if ch < st.channels then streamSeg gen ch 0 (braTotal calls) else []) = _
    rw [if_pos h2]

/-- C1 witness: a two-channel stream driven through chunk sizes 3, 1 (tick)
and 70. -/
theorem blockrate_chunk_invariance_witness :
    ((0 : Nat) < 2 ∧ (0 : Nat) < 1) ∧
    ((braRun (fun ch i => ch + i) (braNew 2 0) [BraCall.proc 3, BraCall.tick, BraCall.proc 70]).2 0
        = streamSeg (fun ch i => ch + i) 0 0
            (braTotal [BraCall.proc 3, BraCall.tick, BraCall.proc 70]) ∧
      (braReset (braNew 1 0)).index = MAX_BUFFER_SIZE ∧
      (braRun (fun ch i => ch + i) (braReset (braNew 1 0))
          [BraCall.proc 3, BraCall.tick, BraCall.proc 70]).2 0
        = streamSeg (fun ch i => ch + i) 0 0
            (braTotal [BraCall.proc 3, BraCall.tick, BraCall.proc 70])) :=
  ⟨⟨by decide, by decide⟩,
    blockrate_chunk_invariance Nat (fun ch i => ch + i) 0 2
      [BraCall.proc 3, BraCall.tick, BraCall.proc 70] (braNew 1 0) 0
      (by decide) (by decide)⟩

/-- Big block adapter state from `audiounit.rs`: the wrapped unit's state
together with the reusable input and output scratch buffers (`self.input`,
`self.output`). The wrapped unit itself is represented by its bounded
`process` function, passed to each operation as `P` (state, size, input
buffers to state, output buffers); buffers are channel-indexed sample
functions. The `resize` calls that (re)allocate the scratch buffers to
`MAX_BUFFER_SIZE` do not change the samples the adapter reads or writes, so
the embedding keeps the scratch contents unchanged at that point. -/
structure BigBlockAdapter (sigma alpha : Type) where
  sourceState : sigma
  inputScratch : Nat → Nat → alpha
  outputScratch : Nat → Nat → alpha

/-- In-place write of a bounded `process` result: positions `off..off+n` of
the destination receive the first `n` produced samples, the rest is
untouched. -/
def writeBack {alpha : Type} (old nw : Nat → Nat → alpha) (off n : Nat) :
    Nat → Nat → alpha :=
  fun ch k => if off ≤ k ∧ k < off + n then nw ch (k - off) else old ch k

/-- The copy of an input sub-slice into the reusable scratch buffer:
positions `0..n` receive `input[i..i+n]`, stale positions remain. -/
def copyIn {alpha : Type} (scratch inp : Nat → Nat → alpha) (i n : Nat) :
    Nat → Nat → alpha :=
  fun ch j => if j < n then inp ch (i + j) else scratch ch j

/-- The oversized-`process` loop of `BigBlockAdapter::process` from
`audiounit.rs`: while samples remain, copy the next input sub-slice of at
most `MAX_BUFFER_SIZE` samples into scratch, delegate to the wrapped unit's
bounded `process`, and copy the produced samples back to the caller's output
at the same offset. -/
def bigLoop {sigma alpha : Type}
    (P : sigma → Nat → (Nat → Nat → alpha) → sigma × (Nat → Nat → alpha))
    (inp : Nat → Nat → alpha) (ad : BigBlockAdapter sigma alpha)
    (out : Nat → Nat → alpha) (i remaining : Nat) :
    BigBlockAdapter sigma alpha × (Nat → Nat → alpha) :=
  if remaining = 0 then (ad, out)
  else
    let n := min remaining MAX_BUFFER_SIZE
    let scr := copyIn ad.inputScratch inp i n
    let res := P ad.sourceState n scr
    let oscr := writeBack ad.outputScratch res.2 0 n
    let out' := writeBack out oscr i n
    bigLoop P inp ⟨res.1, scr, oscr⟩ out' (i + n) (remaining - n)
termination_by remaining
decreasing_by
  have hm : MAX_BUFFER_SIZE = 64 := rfl
  show remaining - min remaining MAX_BUFFER_SIZE < remaining
  omega

/-- `BigBlockAdapter::process` from `audiounit.rs`: sizes above
`MAX_BUFFER_SIZE` run the chunking loop over the scratch buffers; sizes
within the bound delegate directly to the wrapped unit. -/
def bigProcess {sigma alpha : Type}
    (P : sigma → Nat → (Nat → Nat → alpha) → sigma × (Nat → Nat → alpha))
    (ad : BigBlockAdapter sigma alpha) (size : Nat) (inp out : Nat → Nat → alpha) :
    BigBlockAdapter sigma alpha × (Nat → Nat → alpha) :=
  if MAX_BUFFER_SIZE < size then
    bigLoop P inp ad out 0 size
  else
    let res := P ad.sourceState size inp
    (⟨res.1, ad.inputScratch, ad.outputScratch⟩, writeBack out res.2 0 size)

/-- The specification's reference behaviour: the wrapped unit's own bounded
`process` applied to the input sequence in consecutive chunks of at most
`MAX_BUFFER_SIZE` samples, with no scratch buffers involved. -/
def chunkedProcess {sigma alpha : Type}
    (P : sigma → Nat → (Nat → Nat → alpha) → sigma × (Nat → Nat → alpha))
    (inp : Nat → Nat → alpha) (s : sigma) (out : Nat → Nat → alpha)
    (i remaining : Nat) : sigma × (Nat → Nat → alpha) :=
  if remaining = 0 then (s, out)
  else
    let n := min remaining MAX_BUFFER_SIZE
    let res := P s n (fun ch j => inp ch (i + j))
    chunkedProcess P inp res.1 (writeBack out res.2 i n) (i + n) (remaining - n)
termination_by remaining
decreasing_by
  have hm : MAX_BUFFER_SIZE = 64 := rfl
  show remaining - min remaining MAX_BUFFER_SIZE < remaining
  omega

theorem writeBack_writeBack {alpha : Type} (out base nw : Nat → Nat → alpha) (i n : Nat) :
    writeBack out (writeBack base nw 0 n) i n = writeBack out nw i n := by
  funext ch k
  simp only [writeBack]
  split
  · rw [if_pos (by omega)]
    congr 1
  · rfl

theorem bigLoop_eq_chunked {sigma alpha : Type}
    (P : sigma → Nat → (Nat → Nat → alpha) → sigma × (Nat → Nat → alpha))
    (hP : ∀ s n f g, (∀ ch j, j < n → f ch j = g ch j) → P s n f = P s n g)
    (inp : Nat → Nat → alpha) (remaining : Nat) :
    ∀ (ad : BigBlockAdapter sigma alpha) (out : Nat → Nat → alpha) (i : Nat),
    (bigLoop P inp ad out i remaining).1.sourceState
        = (chunkedProcess P inp ad.sourceState out i remaining).1 ∧
    (bigLoop P inp ad out i remaining).2
        = (chunkedProcess P inp ad.sourceState out i remaining).2 := by
  induction remaining using Nat.strong_induction_on with
  | _ remaining ih =>
    intro ad out i
    by_cases hr : remaining = 0
    · subst hr
      rw [bigLoop, chunkedProcess]
      simp
    · rw [bigLoop, chunkedProcess]
      rw [if_neg hr, if_neg hr]
      have hm : MAX_BUFFER_SIZE = 64 := rfl
      set n : Nat := min remaining MAX_BUFFER_SIZE with hn
      dsimp only
      have hres : P ad.sourceState n (copyIn ad.inputScratch inp i n)
          = P ad.sourceState n (fun ch j => inp ch (i + j)) := by
        apply hP
        intro ch j hj
        simp only [copyIn]
        rw [if_pos hj]
      rw [hres, writeBack_writeBack]
      exact ih (remaining - n) (by omega) _ _ _

theorem writeBack_zero {alpha : Type} (out nw : Nat → Nat → alpha) (off : Nat) :
    writeBack out nw off 0 = out := by
  funext ch k
  simp only [writeBack]
  rw [if_neg (by omega)]

theorem chunkedProcess_zero {sigma alpha : Type}
    (P : sigma → Nat → (Nat → Nat → alpha) → sigma × (Nat → Nat → alpha))
    (inp : Nat → Nat → alpha) (s : sigma) (out : Nat → Nat → alpha) (i : Nat) :
    chunkedProcess P inp s out i 0 = (s, out) := by
  rw [chunkedProcess]
  simp

/-- C3: chunking-adapter transparency. For every wrapped unit (a bounded
`process` function `P` that reads only the first `n` samples of its input
buffers and is a no-op at size 0, per the unit contract) and every requested
size, the big block adapter's `process` leaves the wrapped state and writes
the output exactly as the wrapped unit's own bounded `process` applied to the
same input sequence in consecutive chunks of at most `MAX_BUFFER_SIZE`;
size 0 is a no-op, and sizes within the bound delegate to a single direct
bounded call. -/
theorem bigblock_transparent (sigma alpha : Type)
    (P : sigma → Nat → (Nat → Nat → alpha) → sigma × (Nat → Nat → alpha))
    (hP : ∀ s n f g, (∀ ch j, j < n → f ch j = g ch j) → P s n f = P s n g)
    (hP0 : ∀ s f, (P s 0 f).1 = s)
    (ad : BigBlockAdapter sigma alpha) (inp out : Nat → Nat → alpha) (size : Nat) :
    (bigProcess P ad size inp out).1.sourceState
        = (chunkedProcess P inp ad.sourceState out 0 size).1 ∧
    (bigProcess P ad size inp out).2
        = (chunkedProcess P inp ad.sourceState out 0 size).2 ∧
    bigProcess P ad 0 inp out = (ad, out) ∧
    (size ≤ MAX_BUFFER_SIZE →
      (bigProcess P ad size inp out).1.sourceState = (P ad.sourceState size inp).1 ∧
      (bigProcess P ad size inp out).2 = writeBack out (P ad.sourceState size inp).2 0 size) := by
  have hm : MAX_BUFFER_SIZE = 64 := rfl
  have hnoop : bigProcess P ad 0 inp out = (ad, out) := by
    rw [bigProcess, if_neg (by omega)]
    dsimp only
    rw [writeBack_zero, hP0]
  have hsmall : ∀ sz, sz ≤ MAX_BUFFER_SIZE →
      (chunkedProcess P inp ad.sourceState out 0 sz).1 = (P ad.sourceState sz inp).1 ∧
      (chunkedProcess P inp ad.sourceState out 0 sz).2
        = writeBack out (P ad.sourceState sz inp).2 0 sz := by
    intro sz hsz
    by_cases hz : sz = 0
    · subst hz
      rw [chunkedProcess_zero]
      rw [writeBack_zero]
      refine ⟨?_, rfl⟩
      exact (hP0 ad.sourceState inp).symm
    · rw [chunkedProcess, if_neg hz]
      dsimp only
      have hnn : min sz MAX_BUFFER_SIZE = sz := by omega
      rw [hnn]
      have hshift : P ad.sourceState sz (fun ch j => inp ch (0 + j))
          = P ad.sourceState sz inp := by
        apply hP
        intro ch j _
        simp
      rw [hshift, show sz - sz = 0 from by omega, chunkedProcess_zero]
      exact ⟨rfl, rfl⟩
  by_cases hbig : MAX_BUFFER_SIZE < size
  · have heq := bigLoop_eq_chunked P hP inp size ad out 0
    refine ⟨?_, ?_, hnoop, ?_⟩
    · rw [bigProcess, if_pos hbig]
      exact heq.1
    · rw [bigProcess, if_pos hbig]
      exact heq.2
    · intro hle
      omega
  · have hle : size ≤ MAX_BUFFER_SIZE := by omega
    obtain ⟨hc1, hc2⟩ := hsmall size hle
    refine ⟨?_, ?_, hnoop, ?_⟩
    · rw [bigProcess, if_neg hbig]
      dsimp only
      rw [hc1]
    · rw [bigProcess, if_neg hbig]
      dsimp only
      rw [hc2]
    · intro _
      rw [bigProcess, if_neg hbig]
      exact ⟨rfl, rfl⟩

/-- C3 witness: a counting unit processed at size 200 (three chunks) through
the adapter. -/
theorem bigblock_transparent_witness :
    ((bigProcess (fun s n f => (s + n, fun ch j => if j < n then f ch j else 0))
          ⟨0, fun _ _ => 0, fun _ _ => 0⟩ 200 (fun ch i => ch * 1000 + i)
          (fun _ _ => 0)).1.sourceState
        = (chunkedProcess (fun s n f => (s + n, fun ch j => if j < n then f ch j else 0))
            (fun ch i => ch * 1000 + i) 0 (fun _ _ => 0) 0 200).1 ∧
      (bigProcess (fun s n f => (s + n, fun ch j => if j < n then f ch j else 0))
          ⟨0, fun _ _ => 0, fun _ _ => 0⟩ 200 (fun ch i => ch * 1000 + i)
          (fun _ _ => 0)).2
        = (chunkedProcess (fun s n f => (s + n, fun ch j => if j < n then f ch j else 0))
            (fun ch i => ch * 1000 + i) 0 (fun _ _ => 0) 0 200).2 ∧
      bigProcess (fun s n f => (s + n, fun ch j => if j < n then f ch j else 0))
          ⟨0, fun _ _ => 0, fun _ _ => 0⟩ 0 (fun ch i => ch * 1000 + i) (fun _ _ => 0)
        = (⟨0, fun _ _ => 0, fun _ _ => 0⟩, fun _ _ => 0) ∧
      (200 ≤ MAX_BUFFER_SIZE →
        (bigProcess (fun s n f => (s + n, fun ch j => if j < n then f ch j else 0))
            ⟨0, fun _ _ => 0, fun _ _ => 0⟩ 200 (fun ch i => ch * 1000 + i)
            (fun _ _ => 0)).1.sourceState
          = ((fun s n f => (s + n, fun ch j => if j < n then f ch j else 0)) 0 200
              (fun ch i => ch * 1000 + i)).1 ∧
        (bigProcess (fun s n f => (s + n, fun ch j => if j < n then f ch j else 0))
            ⟨0, fun _ _ => 0, fun _ _ => 0⟩ 200 (fun ch i => ch * 1000 + i)
            (fun _ _ => 0)).2
          = writeBack (fun _ _ => 0)
              ((fun s n f => (s + n, fun ch j => if j < n then f ch j else 0)) 0 200
                (fun ch i => ch * 1000 + i)).2 0 200)) :=
  bigblock_transparent Nat Nat (fun s n f => (s + n, fun ch j => if j < n then f ch j else 0))
    (fun s n f g hfg => by
      refine Prod.ext rfl ?_
      funext ch j
      by_cases hj : j < n
      · simp only [if_pos hj]
        exact hfg ch j hj
      · simp only [if_neg hj])
    (fun s f => rfl)
    ⟨0, fun _ _ => 0, fun _ _ => 0⟩ (fun ch i => ch * 1000 + i) (fun _ _ => 0) 200

/-- C10: `BlockRateAdapter::new` asserts that the wrapped unit has zero
inputs (modelled as `none` on violation); every successfully constructed
adapter reports `inputs() = 0` and `outputs()` equal to the wrapped unit's
output count at construction. -/
theorem blockrate_new_assert (alpha : Type) (ins outs : Nat) (z : alpha) :
    (ins ≠ 0 → braNewChecked ins outs z = (none : Option (BlockRateAdapter alpha))) ∧
    (ins = 0 → braNewChecked ins outs z = some (braNew outs z) ∧
      braInputs (braNew outs z) = 0 ∧ braOutputs (braNew outs z) = outs) := by
  constructor
  · intro h
    simp [braNewChecked, h]
  · intro h
    exact ⟨by simp [braNewChecked, h], rfl, rfl⟩
